import Mathlib

/-!
Verification of the MiniCase cross-validation / data-leakage notebooks.

The repository's two notebooks delegate their computation to library calls
(`cross_val_score`, `SimpleImputer`, boolean-mask selection and `%.2f`
printing).  The code written in the notebooks themselves (score negation,
mean aggregation, the leakage fractions and their printing) is embedded
directly; the evaluation components the notebooks only invoke (fold
partitioner, mean imputer, cross-validation evaluator) are modelled from
the specification, which describes them as the conceptual reimplementation.
Throughout, numeric cell values are rationals and a missing value is `none`.
-/

namespace MiniCase

/-- Modelled from the spec: the error kinds of §7 (the notebooks' library
calls raise exceptions; the spec names the kinds `InvalidConfiguration`,
`FitError` and `ScoringError`). -/
inductive CVError
  | invalidConfiguration
  | fitError
  | scoringError
deriving DecidableEq

/-- Modelled from the spec: §4.1 fold sizes — each fold id gets `⌊N/K⌋`
rows, and the first `N % K` fold ids get one extra row. -/
def foldSize (N K f : ℕ) : ℕ :=
  N / K + if f < N % K then 1 else 0

/-- Modelled from the spec: §4.1 default (no-shuffle) fold-id array —
deterministic contiguous blocks in existing row order, fold id `f`
occupying a block of `foldSize N K f` consecutive positions. -/
def foldIdArray (N K : ℕ) : List ℕ :=
  (List.range K).flatMap (fun f => List.replicate (foldSize N K f) f)

/-- Modelled from the spec: §4.1 Fold Partitioner contract — produce the
fold-id array for `2 ≤ K ≤ N`, otherwise fail with `InvalidConfiguration`. -/
def foldPartition (N K : ℕ) : Except CVError (List ℕ) :=
  if 2 ≤ K ∧ K ≤ N then .ok (foldIdArray N K) else .error .invalidConfiguration

theorem sum_range_const_add_indicator (K n r : ℕ) :
    ((List.range K).map (fun f => n + if f < r then 1 else 0)).sum = K * n + min r K := by
  induction K with
  | zero => simp
  | succ K ih =>
    rw [List.range_succ, List.map_append, List.sum_append, ih]
    by_cases h : K < r
    · have hr : min r (K + 1) = K + 1 := by omega
      have hrK : min r K = K := by omega
      simp [h, hr, hrK]
      ring
    · have hr : min r (K + 1) = min r K := by omega
      simp [h, hr]
      ring

theorem foldIdArray_length (N K : ℕ) (hK : 1 ≤ K) :
    (foldIdArray N K).length = N := by
  have hmod : N % K < K := Nat.mod_lt _ hK
  rw [foldIdArray, List.length_flatMap]
  have : (List.range K).map (List.length ∘ fun f => List.replicate (foldSize N K f) f)
      = (List.range K).map (fun f => N / K + if f < N % K then 1 else 0) := by
    simp [foldSize, Function.comp]
  rw [this, sum_range_const_add_indicator]
  have : min (N % K) K = N % K := by omega
  rw [this]
  exact Nat.div_add_mod N K

theorem count_flatMap_replicate (s : ℕ → ℕ) (f : ℕ) :
    ∀ l : List ℕ, l.Nodup →
      (l.flatMap (fun g => List.replicate (s g) g)).count f
        = if f ∈ l then s f else 0 := by
  intro l
  induction l with
  | nil => simp
  | cons a l ih =>
    intro hnd
    rcases List.nodup_cons.mp hnd with ⟨ha, hl⟩
    rw [List.flatMap_cons, List.count_append, ih hl]
    by_cases hfa : f = a
    · subst hfa
      simp [List.count_replicate, ha]
    · simp [List.count_replicate, hfa, Ne.symm hfa]

theorem pairwise_le_replicate (n a : ℕ) :
    (List.replicate n a).Pairwise (· ≤ ·) := by
  induction n with
  | zero => simp
  | succ n ih =>
    rw [List.replicate_succ, List.pairwise_cons]
    exact ⟨fun b hb => le_of_eq (List.eq_of_mem_replicate hb).symm, ih⟩

theorem pairwise_flatMap_replicate (s : ℕ → ℕ) :
    ∀ l : List ℕ, l.Pairwise (· < ·) →
      (l.flatMap (fun g => List.replicate (s g) g)).Pairwise (· ≤ ·) := by
  intro l
  induction l with
  | nil => simp
  | cons a l ih =>
    intro hp
    rcases List.pairwise_cons.mp hp with ⟨ha, hl⟩
    rw [List.flatMap_cons, List.pairwise_append]
    refine ⟨pairwise_le_replicate _ _, ih hl, ?_⟩
    intro x hx y hy
    rcases List.eq_of_mem_replicate hx with rfl
    rcases List.mem_flatMap.mp hy with ⟨g, hg, hyg⟩
    rcases List.eq_of_mem_replicate hyg with rfl
    exact le_of_lt (ha _ hg)

theorem mem_foldIdArray_lt (N K : ℕ) {x : ℕ} (hx : x ∈ foldIdArray N K) : x < K := by
  rcases List.mem_flatMap.mp hx with ⟨g, hg, hxg⟩
  rcases List.eq_of_mem_replicate hxg with rfl
  exact List.mem_range.mp hg

theorem count_foldIdArray (N K f : ℕ) (hf : f < K) :
    (foldIdArray N K).count f = foldSize N K f := by
  rw [foldIdArray, count_flatMap_replicate _ _ _ (List.nodup_range K)]
  simp [List.mem_range.mpr hf]

/-- The full §4.1 contract of the Fold Partitioner on a valid configuration:
the partitioner succeeds, the fold-id array has one entry per row, every
entry is a fold id in `0..K-1`, fold `f` occurs exactly `foldSize N K f`
times, each fold size is `⌊N/K⌋` or `⌊N/K⌋ + 1`, sizes are non-increasing
in the fold id and differ by at most one, the first `N % K` folds are the
larger ones, and the array is monotone (contiguous blocks in row order). -/
def foldPartitionSpec (N K : ℕ) : Prop :=
  foldPartition N K = .ok (foldIdArray N K)
  ∧ (foldIdArray N K).length = N
  ∧ (∀ x ∈ foldIdArray N K, x < K)
  ∧ (∀ f, f < K → (foldIdArray N K).count f = foldSize N K f)
  ∧ (∀ f, f < K → foldSize N K f = N / K ∨ foldSize N K f = N / K + 1)
  ∧ (∀ f g, f ≤ g → g < K →
      foldSize N K g ≤ foldSize N K f ∧ foldSize N K f ≤ foldSize N K g + 1)
  ∧ (∀ f, f < N % K → foldSize N K f = N / K + 1)
  ∧ (∀ f, N % K ≤ f → f < K → foldSize N K f = N / K)
  ∧ (foldIdArray N K).Pairwise (· ≤ ·)

/-- C2: for `2 ≤ K ≤ N` the Fold Partitioner assigns every row index exactly
one fold id in `0..K-1`, fold sizes are `⌊N/K⌋` or `⌈N/K⌉` and differ by at
most 1, the larger folds are the earliest fold ids when `K ∤ N`, and the
default no-shuffle assignment is contiguous blocks in row order. -/
theorem foldPartitioner_balanced_contiguous (N K : ℕ) (h2 : 2 ≤ K) (hKN : K ≤ N) :
    foldPartitionSpec N K := by
  have hK1 : 1 ≤ K := le_trans (by omega) h2
  refine ⟨?_, foldIdArray_length N K hK1, fun x hx => mem_foldIdArray_lt N K hx,
    fun f hf => count_foldIdArray N K f hf, ?_, ?_, ?_, ?_, ?_⟩
  · rw [foldPartition, if_pos ⟨h2, hKN⟩]
  · intro f _
    by_cases h : f < N % K <;> simp [foldSize, h]
  · intro f g hfg _
    by_cases hf : f < N % K <;> by_cases hg : g < N % K <;>
      simp [foldSize, hf, hg] <;> omega
  · intro f hf
    simp [foldSize, hf]
  · intro f hf _
    simp [foldSize, Nat.not_lt.mpr hf]
  · exact pairwise_flatMap_replicate _ _ (List.pairwise_lt_range K)

/-- Witness for C2 at `N = 7`, `K = 3`. -/
theorem foldPartitioner_balanced_contiguous_witness :
    (2 ≤ 3 ∧ 3 ≤ 7) ∧ foldPartitionSpec 7 3 :=
  ⟨by decide, foldPartitioner_balanced_contiguous 7 3 (by decide) (by decide)⟩

/-- Modelled from the spec: §4.3 step 1 — the held-out rows of fold `f` are
the row indices whose fold id equals `f`. -/
def heldOutRows (A : List ℕ) (f : ℕ) : List ℕ :=
  (List.range A.length).filter (fun i => A.getD i 0 == f)

/-- Modelled from the spec: §4.3 step 1 — the training rows of fold `f` are
the row indices whose fold id differs from `f`. -/
def trainRows (A : List ℕ) (f : ℕ) : List ℕ :=
  (List.range A.length).filter (fun i => !(A.getD i 0 == f))

theorem mem_heldOutRows (A : List ℕ) (f i : ℕ) :
    i ∈ heldOutRows A f ↔ i < A.length ∧ A.getD i 0 = f := by
  simp [heldOutRows, List.mem_filter, List.mem_range]

theorem mem_trainRows (A : List ℕ) (f i : ℕ) :
    i ∈ trainRows A f ↔ i < A.length ∧ A.getD i 0 ≠ f := by
  simp [trainRows, List.mem_filter, List.mem_range]

theorem foldPartition_ok_length (N K : ℕ) (A : List ℕ)
    (h : foldPartition N K = .ok A) : A = foldIdArray N K ∧ A.length = N := by
  rw [foldPartition] at h
  by_cases hc : 2 ≤ K ∧ K ≤ N
  · rw [if_pos hc] at h
    cases h
    exact ⟨rfl, foldIdArray_length N K (by omega)⟩
  · rw [if_neg hc] at h
    cases h

/-- C3: for every fold `f`, the training-row set (fold id ≠ `f`) and the
held-out row set (fold id = `f`) produced from the Fold Partitioner's
assignment are disjoint, and their union is the full row index set `0..N-1`
of the dataset. -/
theorem evaluator_rows_partition (N K : ℕ) (A : List ℕ) (f : ℕ)
    (h : foldPartition N K = .ok A) :
    (∀ i, ¬(i ∈ heldOutRows A f ∧ i ∈ trainRows A f))
    ∧ (∀ i, (i ∈ heldOutRows A f ∨ i ∈ trainRows A f) ↔ i < N) := by
  have hlen : A.length = N := (foldPartition_ok_length N K A h).2
  constructor
  · intro i hi
    rw [mem_heldOutRows] at hi
    rw [mem_trainRows] at hi
    exact hi.2.2 hi.1.2
  · intro i
    rw [mem_heldOutRows, mem_trainRows, hlen]
    constructor
    · intro hi
      rcases hi with hi | hi <;> exact hi.1
    · intro hi
      by_cases hf : A.getD i 0 = f
      · exact Or.inl ⟨hi, hf⟩
      · exact Or.inr ⟨hi, hf⟩

/-- Witness for C3 at `N = 7`, `K = 3`, `f = 1`. -/
theorem evaluator_rows_partition_witness :
    foldPartition 7 3 = .ok [0, 0, 0, 1, 1, 2, 2]
    ∧ ((∀ i, ¬(i ∈ heldOutRows [0, 0, 0, 1, 1, 2, 2] 1
          ∧ i ∈ trainRows [0, 0, 0, 1, 1, 2, 2] 1))
      ∧ (∀ i, (i ∈ heldOutRows [0, 0, 0, 1, 1, 2, 2] 1
          ∨ i ∈ trainRows [0, 0, 0, 1, 1, 2, 2] 1) ↔ i < 7)) :=
  ⟨rfl, evaluator_rows_partition 7 3 [0, 0, 0, 1, 1, 2, 2] 1 rfl⟩

/-- C7: for `K < 2` or `K > N` the Fold Partitioner fails with
`InvalidConfiguration`; since the result is the `error` constructor, no
fold assignment is produced. -/
theorem foldPartitioner_rejects_invalid (N K : ℕ) (h : K < 2 ∨ N < K) :
    foldPartition N K = .error .invalidConfiguration := by
  rw [foldPartition, if_neg]
  omega

/-- Witness for C7 at the spec's two cases, `K = 1` and `K = N + 1` with
`N = 10`. -/
theorem foldPartitioner_rejects_invalid_witness :
    ((1 < 2 ∨ (10 : ℕ) < 1)
      ∧ foldPartition 10 1 = .error .invalidConfiguration)
    ∧ (((11 : ℕ) < 2 ∨ (10 : ℕ) < 11)
      ∧ foldPartition 10 11 = .error .invalidConfiguration) :=
  ⟨⟨by decide, foldPartitioner_rejects_invalid 10 1 (by decide)⟩,
    ⟨by decide, foldPartitioner_rejects_invalid 10 11 (by decide)⟩⟩

/-- Row selection: the values of column `c` at the given row indices
(`none` marks a missing cell, the source's `NaN`). -/
def selectRows (c : List (Option ℚ)) (rows : List ℕ) : List (Option ℚ) :=
  rows.map (fun i => c.getD i none)

/-- Arithmetic mean of a list of rationals, as the notebooks' `mean()`:
sum divided by length. -/
def meanQ (l : List ℚ) : ℚ :=
  l.sum / l.length

/-- Modelled from the spec: §4.2 — the mean imputer's fitted statistic for
a column is the arithmetic mean of the column's non-missing values; it is
undefined (`none`) when every value of the column is missing. -/
def colMean (c : List (Option ℚ)) : Option ℚ :=
  if (c.filterMap id).isEmpty then none else some (meanQ (c.filterMap id))

/-- Modelled from the spec: §4.2 — applying a fitted mean imputer replaces
every missing cell with the fitted fill value. -/
def imputeCol (fill : ℚ) (c : List (Option ℚ)) : List ℚ :=
  c.map (fun x => x.getD fill)

/-- C1: a mean-imputer first stage fitted on fold `f`'s training partition
fills a missing held-out cell with exactly the arithmetic mean of the
column's non-missing training values, and the fill value depends only on
the training rows: any column agreeing with `col` on the training rows
yields the same fitted fill value, whatever its held-out values are. -/
theorem imputer_fill_is_training_mean (col : List (Option ℚ)) (A : List ℕ)
    (f j : ℕ) (m : ℚ)
    (hfit : colMean (selectRows col (trainRows A f)) = some m)
    (hmiss : (selectRows col (heldOutRows A f))[j]? = some none) :
    (imputeCol m (selectRows col (heldOutRows A f)))[j]? = some m
    ∧ m = meanQ ((selectRows col (trainRows A f)).filterMap id)
    ∧ ∀ col2 : List (Option ℚ),
        (∀ i ∈ trainRows A f, col2.getD i none = col.getD i none) →
        colMean (selectRows col2 (trainRows A f)) = some m := by
  refine ⟨?_, ?_, ?_⟩
  · rw [imputeCol, List.getElem?_map, hmiss]
    rfl
  · rw [colMean] at hfit
    by_cases he : ((selectRows col (trainRows A f)).filterMap id).isEmpty
    · rw [if_pos he] at hfit
      cases hfit
    · rw [if_neg he] at hfit
      exact (Option.some_injective _ hfit).symm
  · intro col2 hagree
    have : selectRows col2 (trainRows A f) = selectRows col (trainRows A f) :=
      List.map_congr_left hagree
    rw [this]
    exact hfit

/-- Witness for C1: column `[1, 3, missing, 5]`, fold array `[0,0,1,1]`,
fold `f = 1` (training rows `{0,1}`, training mean `2`), held-out cell
`j = 0` missing. -/
theorem imputer_fill_is_training_mean_witness :
    (colMean (selectRows [some 1, some 3, none, some 5]
        (trainRows [0, 0, 1, 1] 1)) = some 2
      ∧ (selectRows [some 1, some 3, none, some 5]
        (heldOutRows [0, 0, 1, 1] 1))[0]? = some none)
    ∧ ((imputeCol 2 (selectRows [some 1, some 3, none, some 5]
        (heldOutRows [0, 0, 1, 1] 1)))[0]? = some 2
      ∧ 2 = meanQ ((selectRows [some 1, some 3, none, some 5]
        (trainRows [0, 0, 1, 1] 1)).filterMap id)
      ∧ ∀ col2 : List (Option ℚ),
          (∀ i ∈ trainRows [0, 0, 1, 1] 1,
            col2.getD i none = [some 1, some 3, none, some 5].getD i none) →
          colMean (selectRows col2 (trainRows [0, 0, 1, 1] 1)) = some 2) :=
  by
  have h1 : colMean (selectRows [some 1, some 3, none, some 5]
      (trainRows [0, 0, 1, 1] 1)) = some 2 := by
    rw [show selectRows [some 1, some 3, none, some 5]
      (trainRows [0, 0, 1, 1] 1) = [some 1, some 3] from rfl]
    rw [colMean]
    simp only [show List.filterMap id [(some 1 : Option ℚ), some 3] = [1, 3] from rfl]
    rw [if_neg (by simp), meanQ]
    norm_num
  have h2 : (selectRows [some 1, some 3, none, some 5]
      (heldOutRows [0, 0, 1, 1] 1))[0]? = some none := by decide
  exact ⟨⟨h1, h2⟩,
    imputer_fill_is_training_mean [some 1, some 3, none, some 5]
      [0, 0, 1, 1] 1 0 2 h1 h2⟩

/-- Mean absolute error between predictions and true targets. -/
def mae (preds tgts : List ℚ) : ℚ :=
  meanQ ((preds.zip tgts).map (fun p => |p.1 - p.2|))

/-- Modelled from the spec: §4.3 scoring convention — metrics are either
already higher-is-better or raw error metrics (lower is better). -/
inductive MetricKind
  | higherIsBetter
  | rawErrorMetric

/-- Modelled from the spec: §4.3 — under the enforced higher-is-better
convention a raw error metric's value is negated; a higher-is-better score
is kept as is (the source's `scoring='neg_mean_absolute_error'`). -/
def applyConvention : MetricKind → ℚ → ℚ
  | .higherIsBetter, s => s
  | .rawErrorMetric, e => -e

/-- Modelled from the spec: §4.3 step 5 — the per-fold score sequence: the
metric on each fold's predictions and held-out targets, with the scoring
convention applied. -/
def perFoldScores (folds : List (List ℚ × List ℚ)) (kind : MetricKind)
    (metric : List ℚ → List ℚ → ℚ) : List ℚ :=
  folds.map (fun pt => applyConvention kind (metric pt.1 pt.2))

/-- Modelled from the spec: §4.3 — the summary statistic is the arithmetic
mean of the per-fold scores (the source's `scores.mean()`). -/
def cvAggregate (folds : List (List ℚ × List ℚ)) (kind : MetricKind)
    (metric : List ℚ → List ℚ → ℚ) : ℚ :=
  meanQ (perFoldScores folds kind metric)

/-- The notebook's `scores = -1 * cross_val_score(...)` step: elementwise
multiplication of the per-fold scores by `-1`. -/
def negateScores (l : List ℚ) : List ℚ :=
  l.map (fun s => -1 * s)

theorem sum_map_neg (l : List ℚ) : (l.map (fun e => -e)).sum = -l.sum := by
  induction l with
  | nil => simp
  | cons a l ih => simp [ih]; ring

/-- C4: with the higher-is-better convention enforced and the raw error
metric MAE supplied, each per-fold value is negated before the mean
aggregation step: the per-fold scores are exactly the negated per-fold MAE
values, the aggregate is the arithmetic mean of those negated values
(equivalently, minus the mean of the raw MAE values), and the notebook's
`-1 *` step recovers the raw per-fold MAE values. -/
theorem error_metric_negated_before_mean (folds : List (List ℚ × List ℚ)) :
    perFoldScores folds .rawErrorMetric mae
        = (folds.map (fun pt => mae pt.1 pt.2)).map (fun e => -e)
    ∧ cvAggregate folds .rawErrorMetric mae
        = meanQ ((folds.map (fun pt => mae pt.1 pt.2)).map (fun e => -e))
    ∧ cvAggregate folds .rawErrorMetric mae
        = -(meanQ (folds.map (fun pt => mae pt.1 pt.2)))
    ∧ negateScores (perFoldScores folds .rawErrorMetric mae)
        = folds.map (fun pt => mae pt.1 pt.2) := by
  have h1 : perFoldScores folds .rawErrorMetric mae
      = (folds.map (fun pt => mae pt.1 pt.2)).map (fun e => -e) := by
    rw [perFoldScores, List.map_map]
    rfl
  refine ⟨h1, by rw [cvAggregate, h1], ?_, ?_⟩
  · rw [cvAggregate, h1, meanQ, meanQ, sum_map_neg, List.length_map, neg_div]
  · rw [negateScores, h1, List.map_map]
    have : ((fun s => -1 * s) ∘ fun e => -e) = fun e : ℚ => e := by
      funext e
      simp
    rw [this]
    exact List.map_id _

/-- Modelled from the spec: §4.2 — fitting the imputer stage on the
training partition: fails with `FitError` when some feature column has zero
non-missing training values, otherwise yields the per-column mean fill
values. -/
def pipelineFit (cols : List (List (Option ℚ))) : Except CVError (List ℚ) :=
  if cols.any (fun c => (c.filterMap id).isEmpty) then .error .fitError
  else .ok (cols.map (fun c => meanQ (c.filterMap id)))

/-- Modelled from the spec: §9 — an explicit seeded pseudo-random generator
passed by value (a linear congruential step; the spec fixes no particular
generator, only that the shuffle is a deterministic function of the seed). -/
def lcgStep (s : ℕ) : ℕ :=
  (1103515245 * s + 12345) % 4294967296

/-- Fisher-Yates style seeded selection, with fuel bounding the number of
draws. -/
def shuffleGo : ℕ → ℕ → List ℕ → List ℕ
  | 0, _, l => l
  | n + 1, s, l =>
    let k := s % (max 1 l.length)
    l.getD k 0 :: shuffleGo n (lcgStep s) (l.take k ++ l.drop (k + 1))

/-- Modelled from the spec: §4.1 — the optional shuffle mode permutes the
rows with the explicitly seeded generator. -/
def seededShuffle (seed : ℕ) (l : List ℕ) : List ℕ :=
  shuffleGo l.length seed l

/-- The row order an evaluation visits: shuffled by the seed when shuffle
mode is on, the existing row order otherwise (the notebooks' `cv=5`). -/
def rowOrder (N : ℕ) (shuffle : Bool) (seed : ℕ) : List ℕ :=
  if shuffle then seededShuffle seed (List.range N) else List.range N

/-- Modelled from the spec: §4.3 steps 1-5 for one fold: select training
and held-out rows, fit the imputer stage on the training partition only,
impute both partitions with the fitted fills, train the supplied predictor
on the training rows, predict the held-out features, and score under the
convention; `ScoringError` on an empty held-out partition. -/
def evalFold (cols : List (List (Option ℚ))) (tgt : List ℚ) (order A : List ℕ)
    (kind : MetricKind) (metric : List ℚ → List ℚ → ℚ)
    (predictor : List (List ℚ) → List ℚ → List (List ℚ) → List ℚ)
    (f : ℕ) : Except CVError ℚ :=
  let trainIdx := (trainRows A f).map (fun p => order.getD p 0)
  let testIdx := (heldOutRows A f).map (fun p => order.getD p 0)
  let trainCols := cols.map (fun c => selectRows c trainIdx)
  match pipelineFit trainCols with
  | .error e => .error e
  | .ok fills =>
      if testIdx.isEmpty then .error .scoringError
      else
        let trainX := (trainCols.zip fills).map (fun p => imputeCol p.2 p.1)
        let testX := ((cols.map (fun c => selectRows c testIdx)).zip fills).map
          (fun p => imputeCol p.2 p.1)
        let preds := predictor trainX (trainIdx.map (fun i => tgt.getD i 0)) testX
        .ok (applyConvention kind (metric preds (testIdx.map (fun i => tgt.getD i 0))))

/-- All-or-nothing sequential fold execution: the first failing fold aborts
the run and no partial score list is produced. -/
def exceptMapList {α β : Type} (g : α → Except CVError β) : List α → Except CVError (List β)
  | [] => .ok []
  | a :: l =>
    match g a with
    | .error e => .error e
    | .ok b =>
        match exceptMapList g l with
        | .error e => .error e
        | .ok bs => .ok (b :: bs)

/-- Modelled from the spec: §4.3 — the Cross-Validation Evaluator: partition
the rows with the Fold Partitioner, then run the K fit/predict/score cycles
in fold-id order, aborting the whole run on the first error. -/
def cvRun (cols : List (List (Option ℚ))) (tgt : List ℚ) (K : ℕ)
    (shuffle : Bool) (seed : ℕ) (kind : MetricKind)
    (metric : List ℚ → List ℚ → ℚ)
    (predictor : List (List ℚ) → List ℚ → List (List ℚ) → List ℚ) :
    Except CVError (List ℚ) :=
  match foldPartition tgt.length K with
  | .error e => .error e
  | .ok A =>
      exceptMapList
        (evalFold cols tgt (rowOrder tgt.length shuffle seed) A kind metric predictor)
        (List.range K)

/-- A full evaluation input: dataset (feature columns and target), fold
count, shuffle flag and seed, metric with its convention kind, and the
trainable predictor. All randomness is carried by the explicit seed. -/
structure CVInput where
  cols : List (List (Option ℚ))
  tgt : List ℚ
  K : ℕ
  shuffle : Bool
  seed : ℕ
  kind : MetricKind
  metric : List ℚ → List ℚ → ℚ
  predictor : List (List ℚ) → List ℚ → List (List ℚ) → List ℚ

/-- One evaluation run over a bundled input. -/
def cvEvaluate (i : CVInput) : Except CVError (List ℚ) :=
  cvRun i.cols i.tgt i.K i.shuffle i.seed i.kind i.metric i.predictor

/-- C5: two evaluation runs on identical inputs — same dataset, fold count,
shuffle flag and seed, metric and predictor — produce identical per-fold
score sequences. In this model every source of randomness is the explicit
seed passed by value, so the evaluator is a pure function of its input. -/
theorem evaluator_deterministic (i1 i2 : CVInput) (h : i1 = i2) :
    cvEvaluate i1 = cvEvaluate i2 := by
  rw [h]

/-- A concrete evaluation input for the determinism witness: 6 rows, one
feature column with a missing cell, `K = 3`, shuffle on with seed 42, MAE
under the enforced convention, and a predict-the-training-mean predictor. -/
def sampleInput : CVInput where
  cols := [[some 1, some 2, none, some 4, some 5, some 6]]
  tgt := [1, 2, 3, 4, 5, 6]
  K := 3
  shuffle := true
  seed := 42
  kind := .rawErrorMetric
  metric := mae
  predictor := fun _ trainY testX => (testX.headD []).map (fun _ => meanQ trainY)

/-- Witness for C5: the two runs on the (equal) sample inputs coincide. -/
theorem evaluator_deterministic_witness :
    sampleInput = sampleInput ∧ cvEvaluate sampleInput = cvEvaluate sampleInput :=
  ⟨rfl, evaluator_deterministic sampleInput sampleInput rfl⟩

theorem pipelineFit_error_eq (cols : List (List (Option ℚ))) (e : CVError)
    (h : pipelineFit cols = .error e) : e = .fitError := by
  rw [pipelineFit] at h
  by_cases hc : cols.any (fun c => (c.filterMap id).isEmpty)
  · rw [if_pos hc] at h
    cases h
    rfl
  · rw [if_neg hc] at h
    cases h

theorem pipelineFit_fitError_of_degenerate (cols : List (List (Option ℚ)))
    (h : ∃ c ∈ cols, (c.filterMap id).isEmpty = true) :
    pipelineFit cols = .error .fitError := by
  rw [pipelineFit, if_pos (List.any_eq_true.mpr h)]

theorem heldOutRows_foldIdArray_ne_nil (N K f : ℕ)
    (h2 : 2 ≤ K) (hKN : K ≤ N) (hf : f < K) :
    heldOutRows (foldIdArray N K) f ≠ [] := by
  have hdiv : 1 ≤ N / K := (Nat.one_le_div_iff (by omega)).mpr hKN
  have hcount : 0 < (foldIdArray N K).count f := by
    rw [count_foldIdArray N K f hf, foldSize]
    by_cases h : f < N % K <;> simp [h] <;> omega
  have hmem : f ∈ foldIdArray N K := List.count_pos_iff.mp hcount
  rcases List.mem_iff_getElem.mp hmem with ⟨i, hi, hEq⟩
  have : i ∈ heldOutRows (foldIdArray N K) f := by
    rw [mem_heldOutRows]
    exact ⟨hi, by rw [List.getD_eq_getElem _ _ hi, hEq]⟩
  exact List.ne_nil_of_mem this

theorem evalFold_ok_or_fitError (cols : List (List (Option ℚ))) (tgt : List ℚ)
    (order : List ℕ) (kind : MetricKind) (metric : List ℚ → List ℚ → ℚ)
    (predictor : List (List ℚ) → List ℚ → List (List ℚ) → List ℚ)
    (N K f : ℕ) (h2 : 2 ≤ K) (hKN : K ≤ N) (hf : f < K) :
    evalFold cols tgt order (foldIdArray N K) kind metric predictor f
        = .error .fitError
    ∨ ∃ b, evalFold cols tgt order (foldIdArray N K) kind metric predictor f
        = .ok b := by
  rw [evalFold]
  cases hp : pipelineFit ((cols.map (fun c =>
      selectRows c ((trainRows (foldIdArray N K) f).map (fun p => order.getD p 0))))) with
  | error e =>
    left
    have he := pipelineFit_error_eq _ _ hp
    subst he
    simp [hp]
  | ok fills =>
    right
    simp only [hp]
    have hne : (heldOutRows (foldIdArray N K) f).map (fun p => order.getD p 0) ≠ [] := by
      intro hnil
      exact heldOutRows_foldIdArray_ne_nil N K f h2 hKN hf
        (List.map_eq_nil_iff.mp hnil)
    rw [if_neg (by simpa using hne)]
    exact ⟨_, rfl⟩

theorem exceptMapList_fitError {α : Type} (g : α → Except CVError ℚ) :
    ∀ l : List α,
      (∀ x ∈ l, g x = .error .fitError ∨ ∃ b, g x = .ok b) →
      (∃ x ∈ l, g x = .error .fitError) →
      exceptMapList g l = .error .fitError := by
  intro l
  induction l with
  | nil =>
    intro _ habs
    rcases habs with ⟨x, hx, _⟩
    cases hx
  | cons a l ih =>
    intro hall hsome
    rcases hall a (List.mem_cons_self a l) with ha | ⟨b, hb⟩
    · rw [exceptMapList, ha]
    · rw [exceptMapList, hb]
      have : ∃ x ∈ l, g x = .error .fitError := by
        rcases hsome with ⟨x, hx, hgx⟩
        rcases List.mem_cons.mp hx with rfl | hxl
        · rw [hgx] at hb
          cases hb
        · exact ⟨x, hxl, hgx⟩
      rw [ih (fun x hx => hall x (List.mem_cons_of_mem a hx)) this]

theorem evalFold_fitError_of_degenerate (cols : List (List (Option ℚ)))
    (tgt : List ℚ) (order A : List ℕ) (kind : MetricKind)
    (metric : List ℚ → List ℚ → ℚ)
    (predictor : List (List ℚ) → List ℚ → List (List ℚ) → List ℚ) (f : ℕ)
    (hdeg : ∃ c ∈ cols,
      ((selectRows c ((trainRows A f).map (fun p => order.getD p 0))).filterMap
        id).isEmpty = true) :
    evalFold cols tgt order A kind metric predictor f = .error .fitError := by
  rw [evalFold]
  have hfit : pipelineFit (cols.map (fun c =>
      selectRows c ((trainRows A f).map (fun p => order.getD p 0)))) = .error .fitError := by
    apply pipelineFit_fitError_of_degenerate
    rcases hdeg with ⟨c, hc, hdc⟩
    exact ⟨selectRows c ((trainRows A f).map (fun p => order.getD p 0)),
      List.mem_map_of_mem _ hc, hdc⟩
  simp only [hfit]

/-- C8: if fold `f`'s training partition contains a feature column with zero
non-missing values, fitting the Model Pipeline on it fails with `FitError`,
and the whole evaluation run fails with `FitError` — it never returns a
(partial) per-fold score list. -/
theorem fitError_is_fatal_to_run (cols : List (List (Option ℚ))) (tgt : List ℚ)
    (K : ℕ) (shuffle : Bool) (seed : ℕ) (kind : MetricKind)
    (metric : List ℚ → List ℚ → ℚ)
    (predictor : List (List ℚ) → List ℚ → List (List ℚ) → List ℚ) (f : ℕ)
    (h2 : 2 ≤ K) (hKN : K ≤ tgt.length) (hf : f < K)
    (hdeg : ∃ c ∈ cols,
      ((selectRows c ((trainRows (foldIdArray tgt.length K) f).map
        (fun p => (rowOrder tgt.length shuffle seed).getD p 0))).filterMap
        id).isEmpty = true) :
    pipelineFit (cols.map (fun c =>
        selectRows c ((trainRows (foldIdArray tgt.length K) f).map
          (fun p => (rowOrder tgt.length shuffle seed).getD p 0)))) = .error .fitError
    ∧ cvRun cols tgt K shuffle seed kind metric predictor = .error .fitError
    ∧ ∀ scores, cvRun cols tgt K shuffle seed kind metric predictor ≠ .ok scores := by
  have hfit : pipelineFit (cols.map (fun c =>
      selectRows c ((trainRows (foldIdArray tgt.length K) f).map
        (fun p => (rowOrder tgt.length shuffle seed).getD p 0)))) = .error .fitError := by
    apply pipelineFit_fitError_of_degenerate
    rcases hdeg with ⟨c, hc, hdc⟩
    exact ⟨selectRows c ((trainRows (foldIdArray tgt.length K) f).map
      (fun p => (rowOrder tgt.length shuffle seed).getD p 0)),
      List.mem_map_of_mem _ hc, hdc⟩
  have hrun : cvRun cols tgt K shuffle seed kind metric predictor = .error .fitError := by
    rw [cvRun]
    have hpart : foldPartition tgt.length K = .ok (foldIdArray tgt.length K) := by
      rw [foldPartition, if_pos ⟨h2, hKN⟩]
    rw [hpart]
    apply exceptMapList_fitError
    · intro x hx
      exact evalFold_ok_or_fitError cols tgt _ kind metric predictor
        tgt.length K x h2 hKN (List.mem_range.mp hx)
    · exact ⟨f, List.mem_range.mpr hf,
        evalFold_fitError_of_degenerate cols tgt _ _ kind metric predictor f hdeg⟩
  refine ⟨hfit, hrun, ?_⟩
  intro scores hok
  rw [hrun] at hok
  cases hok

/-- Witness for C8: one feature column whose values are missing exactly on
fold 0's training rows (`N = 4`, `K = 2`, no shuffle), with a trivial
predictor. -/
theorem fitError_is_fatal_to_run_witness :
    ((2 : ℕ) ≤ 2 ∧ (2 : ℕ) ≤ 4 ∧ (0 : ℕ) < 2
      ∧ ∃ c ∈ [[some (1 : ℚ), some 1, none, none]],
        ((selectRows c ((trainRows (foldIdArray 4 2) 0).map
          (fun p => (rowOrder 4 false 0).getD p 0))).filterMap id).isEmpty = true)
    ∧ (pipelineFit ([[some (1 : ℚ), some 1, none, none]].map (fun c =>
          selectRows c ((trainRows (foldIdArray 4 2) 0).map
            (fun p => (rowOrder 4 false 0).getD p 0)))) = .error .fitError
      ∧ cvRun [[some (1 : ℚ), some 1, none, none]] [0, 0, 0, 0] 2 false 0
          .rawErrorMetric mae (fun _ _ tx => tx.map (fun _ => 0)) = .error .fitError
      ∧ ∀ scores, cvRun [[some (1 : ℚ), some 1, none, none]] [0, 0, 0, 0] 2 false 0
          .rawErrorMetric mae (fun _ _ tx => tx.map (fun _ => 0)) ≠ .ok scores) :=
  ⟨⟨by decide, by decide, by decide, by decide⟩,
    fitError_is_fatal_to_run [[some (1 : ℚ), some 1, none, none]] [0, 0, 0, 0]
      2 false 0 .rawErrorMetric mae (fun _ _ tx => tx.map (fun _ => 0)) 0
      (by decide) (by decide) (by decide) (by decide)⟩

/-- The notebook's boolean-mask selection `X.expenditure[y]`: the feature
values at the rows whose mask entry is true. -/
def maskSelect (feature : List ℚ) (mask : List Bool) : List ℚ :=
  ((feature.zip mask).filter (fun p => p.2)).map (fun p => p.1)

/-- The notebook's `(series == 0).mean()`: fraction of entries equal to
zero; on an empty series pandas yields NaN, modelled as `none`. -/
def fracZero (l : List ℚ) : Option ℚ :=
  if l.isEmpty then none
  else some (((l.filter (fun x => decide (x = 0))).length : ℚ) / (l.length : ℚ))

/-- The Leakage Auditor of the Data Leakage notebook: the fraction of
target=false rows with feature 0 (`expenditures_noncardholders`, mask `~y`)
and the fraction of target=true rows with feature 0
(`expenditures_cardholders`, mask `y`). -/
def leakageAudit (feature : List ℚ) (target : List Bool) : Option ℚ × Option ℚ :=
  (fracZero (maskSelect feature (target.map (fun b => !b))),
    fracZero (maskSelect feature target))

/-- The notebook's `%.2f` fixed two-decimal formatting, for the nonnegative
fractions it prints: round to hundredths, print integer part, a dot, and a
zero-padded two-digit fractional part. -/
def fmt2 (q : ℚ) : String :=
  toString (⌊q * 100 + 1 / 2⌋ / 100) ++ "."
    ++ (if ⌊q * 100 + 1 / 2⌋ % 100 < 10 then "0" else "")
    ++ toString (⌊q * 100 + 1 / 2⌋ % 100)

theorem fracZero_all_zero (l : List ℚ) (hne : l ≠ []) (hall : ∀ x ∈ l, x = 0) :
    fracZero l = some 1 := by
  rw [fracZero, if_neg (by simpa using hne)]
  have hfilter : l.filter (fun x => decide (x = 0)) = l :=
    List.filter_eq_self.mpr (fun a ha => by simpa using hall a ha)
  rw [hfilter, div_self]
  exact Nat.cast_ne_zero.mpr (fun h => hne (List.eq_nil_of_length_eq_zero h))

/-- C6: on any dataset where every target=false row has feature value 0 and
exactly 2 of 100 target=true rows have feature value 0, the Leakage Auditor
reports fraction_false = 1 and fraction_true = 1/50, and the fixed
two-decimal printing renders them as "1.00" and "0.02". -/
theorem auditor_reports_leaky_fractions (feature : List ℚ) (target : List Bool)
    (hne : maskSelect feature (target.map (fun b => !b)) ≠ [])
    (hall : ∀ x ∈ maskSelect feature (target.map (fun b => !b)), x = 0)
    (hlen : (maskSelect feature target).length = 100)
    (hzeros : ((maskSelect feature target).filter (fun x => decide (x = 0))).length = 2) :
    (leakageAudit feature target).1 = some 1
    ∧ (leakageAudit feature target).2 = some (1 / 50)
    ∧ fmt2 1 = "1.00"
    ∧ fmt2 (1 / 50) = "0.02" := by
  have hf1 : fmt2 1 = "1.00" := by
    simp only [fmt2]
    rw [show ⌊(1 : ℚ) * 100 + 1 / 2⌋ = (100 : ℤ) by norm_num]
    decide
  have hf2 : fmt2 (1 / 50) = "0.02" := by
    simp only [fmt2]
    rw [show ⌊(1 / 50 : ℚ) * 100 + 1 / 2⌋ = (2 : ℤ) by norm_num]
    decide
  refine ⟨fracZero_all_zero _ hne hall, ?_, hf1, hf2⟩
  have hne2 : maskSelect feature target ≠ [] := by
    intro h
    rw [h] at hlen
    cases hlen
  have h22 : (leakageAudit feature target).2 = fracZero (maskSelect feature target) := rfl
  rw [h22, fracZero, if_neg (by simpa using hne2), hzeros, hlen]
  norm_num

/-- Witness dataset for C6: 100 target=true rows of which exactly 2 have
feature 0, and 3 target=false rows all with feature 0. -/
def auditFeature : List ℚ :=
  [0, 0] ++ List.replicate 98 1 ++ [0, 0, 0]

/-- Witness target column for C6. -/
def auditTarget : List Bool :=
  List.replicate 100 true ++ List.replicate 3 false

/-- Witness for C6 on the concrete 103-row dataset. -/
theorem auditor_reports_leaky_fractions_witness :
    (maskSelect auditFeature (auditTarget.map (fun b => !b)) ≠ []
      ∧ (∀ x ∈ maskSelect auditFeature (auditTarget.map (fun b => !b)), x = 0)
      ∧ (maskSelect auditFeature auditTarget).length = 100
      ∧ ((maskSelect auditFeature auditTarget).filter
          (fun x => decide (x = 0))).length = 2)
    ∧ ((leakageAudit auditFeature auditTarget).1 = some 1
      ∧ (leakageAudit auditFeature auditTarget).2 = some (1 / 50)
      ∧ fmt2 1 = "1.00"
      ∧ fmt2 (1 / 50) = "0.02") := by
  have h1 : maskSelect auditFeature (auditTarget.map (fun b => !b)) ≠ [] := by decide
  have h2 : ∀ x ∈ maskSelect auditFeature (auditTarget.map (fun b => !b)), x = 0 := by
    decide
  have h3 : (maskSelect auditFeature auditTarget).length = 100 := by decide
  have h4 : ((maskSelect auditFeature auditTarget).filter
      (fun x => decide (x = 0))).length = 2 := by decide
  exact ⟨⟨h1, h2, h3, h4⟩,
    auditor_reports_leaky_fractions auditFeature auditTarget h1 h2 h3 h4⟩

/-- C9: the Leakage Auditor always returns the two conditional fractions as
a pair; an empty target class yields `none` (NaN) for that class's fraction
rather than an error, and a non-empty class yields its fraction of
feature-0 rows. -/
theorem auditor_nan_on_empty_class (feature : List ℚ) (target : List Bool) :
    (maskSelect feature target = [] → (leakageAudit feature target).2 = none)
    ∧ (maskSelect feature (target.map (fun b => !b)) = [] →
        (leakageAudit feature target).1 = none)
    ∧ (maskSelect feature target ≠ [] →
        (leakageAudit feature target).2
          = some ((((maskSelect feature target).filter
                (fun x => decide (x = 0))).length : ℚ)
              / ((maskSelect feature target).length : ℚ)))
    ∧ (maskSelect feature (target.map (fun b => !b)) ≠ [] →
        (leakageAudit feature target).1
          = some ((((maskSelect feature (target.map (fun b => !b))).filter
                (fun x => decide (x = 0))).length : ℚ)
              / ((maskSelect feature (target.map (fun b => !b))).length : ℚ))) := by
  have h2eq : (leakageAudit feature target).2
      = fracZero (maskSelect feature target) := rfl
  have h1eq : (leakageAudit feature target).1
      = fracZero (maskSelect feature (target.map (fun b => !b))) := rfl
  refine ⟨?_, ?_, ?_, ?_⟩
  · intro h
    rw [h2eq, h, fracZero]
    rfl
  · intro h
    rw [h1eq, h, fracZero]
    rfl
  · intro h
    rw [h2eq, fracZero, if_neg (by simpa using h)]
  · intro h
    rw [h1eq, fracZero, if_neg (by simpa using h)]

/-- Witness for C9: a dataset whose target=true class is empty — the
auditor reports `none` (NaN) for the true-class fraction instead of
failing. -/
theorem auditor_nan_on_empty_class_witness :
    maskSelect ([0, 5] : List ℚ) [false, false] = []
    ∧ (leakageAudit ([0, 5] : List ℚ) [false, false]).2 = none :=
  ⟨by decide, (auditor_nan_on_empty_class ([0, 5] : List ℚ) [false, false]).1 (by decide)⟩

/-- The row-index groups the auditor's boolean masks select: the rows of a
given target class. -/
def rowsOfClass (target : List Bool) (b : Bool) : List ℕ :=
  (List.range target.length).filter (fun i => target.getD i false == b)

theorem mem_rowsOfClass (target : List Bool) (b : Bool) (i : ℕ) :
    i ∈ rowsOfClass target b ↔ i < target.length ∧ target.getD i false = b := by
  simp [rowsOfClass, List.mem_filter, List.mem_range]

theorem maskSelect_cons (x : ℚ) (fs : List ℚ) (b : Bool) (t : List Bool) :
    maskSelect (x :: fs) (b :: t)
      = if b then x :: maskSelect fs t else maskSelect fs t := by
  cases b <;> simp [maskSelect]

theorem maskSelect_length_partition :
    ∀ (target : List Bool) (feature : List ℚ),
      feature.length = target.length →
      (maskSelect feature target).length
        + (maskSelect feature (target.map (fun b => !b))).length = target.length := by
  intro target
  induction target with
  | nil =>
    intro feature h
    rw [List.eq_nil_of_length_eq_zero h]
    simp [maskSelect]
  | cons b t ih =>
    intro feature h
    cases feature with
    | nil => simp at h
    | cons x fs =>
      have hlen : fs.length = t.length := by simpa using h
      rw [List.map_cons, maskSelect_cons, maskSelect_cons]
      have := ih fs hlen
      cases b <;> simp <;> omega

/-- C10: the two row groups the Leakage Auditor selects — target=true rows
and target=false rows — are disjoint and together cover every row, so the
two fractions' denominators sum to the dataset's total row count. -/
theorem auditor_groups_partition_rows (feature : List ℚ) (target : List Bool)
    (hlen : feature.length = target.length) :
    (∀ i, ¬(i ∈ rowsOfClass target true ∧ i ∈ rowsOfClass target false))
    ∧ (∀ i, (i ∈ rowsOfClass target true ∨ i ∈ rowsOfClass target false)
        ↔ i < target.length)
    ∧ (maskSelect feature target).length
        + (maskSelect feature (target.map (fun b => !b))).length = target.length := by
  refine ⟨?_, ?_, maskSelect_length_partition target feature hlen⟩
  · intro i hi
    rw [mem_rowsOfClass] at hi
    rw [mem_rowsOfClass] at hi
    rcases hi with ⟨⟨_, ht⟩, ⟨_, hf⟩⟩
    rw [ht] at hf
    cases hf
  · intro i
    rw [mem_rowsOfClass, mem_rowsOfClass]
    constructor
    · intro h
      rcases h with h | h <;> exact h.1
    · intro h
      cases hb : target.getD i false
      · exact Or.inr ⟨h, rfl⟩
      · exact Or.inl ⟨h, rfl⟩

/-- Witness for C10 on a 3-row dataset. -/
theorem auditor_groups_partition_rows_witness :
    ([1, 0, 2] : List ℚ).length = [true, false, true].length
    ∧ ((∀ i, ¬(i ∈ rowsOfClass [true, false, true] true
          ∧ i ∈ rowsOfClass [true, false, true] false))
      ∧ (∀ i, (i ∈ rowsOfClass [true, false, true] true
          ∨ i ∈ rowsOfClass [true, false, true] false)
          ↔ i < [true, false, true].length)
      ∧ (maskSelect [1, 0, 2] [true, false, true]).length
          + (maskSelect [1, 0, 2] ([true, false, true].map (fun b => !b))).length
          = [true, false, true].length) :=
  ⟨by decide, auditor_groups_partition_rows [1, 0, 2] [true, false, true] (by decide)⟩

end MiniCase
